import Mathlib

/-!
Verification of the httpcache caching policy engine.

The development shallowly embeds `httpcache/cache.py` (class `HTTPCache`,
operations `store`, `retrieve`, `handle_304`, and the private eviction pass
`__reduce_cache_count`).  Times are modelled as natural-number timestamps
(Python `datetime` values compare totally, and the only arithmetic the code
performs is adding a number of seconds).  Header maps are modelled as records
with one optional field per header the code reads or writes.

The repository's helper modules `httpcache/utils.py` and
`httpcache/backends.py` are not part of the sources; the functions the cache
imports from them (`parse_date_header`, `build_date_header`,
`expires_from_cache_control`, `url_contains_query`, and the recency-ordered
backend `RecentOrderedDict`) are modelled from the specification, as marked
on each such definition.

Fallible Python code is embedded with `Except`: `PyErr.attributeError` stands
for an `AttributeError` (e.g. calling `.strip` on `None`) and
`PyErr.typeError` for a `TypeError` (e.g. ordering a `datetime` against
`None`, which Python 3 rejects).
-/

/-- A Python runtime error raised by a modelled operation. -/
inductive PyErr where
  | attributeError
  | typeError
  deriving DecidableEq, Repr

/-- Modelled from the spec (Header Utilities, `parseDateHeader` /
`buildDateHeader` of the missing `httpcache/utils.py`): the text of an HTTP
date header is represented by its parse result.  `valid t` stands for text in
one of the three accepted formats (RFC 1123, RFC 850, asctime) denoting the
timestamp `t`; `malformed` stands for text no format matches. -/
inductive DateText where
  | valid (t : Nat)
  | malformed
  deriving DecidableEq, Repr

/-- Modelled from the spec: `parse_date_header` of the missing
`httpcache/utils.py` returns the denoted timestamp, or none when no date
format matches. -/
def parse_date_header : DateText → Option Nat
  | .valid t => some t
  | .malformed => none

/-- Modelled from the spec: `build_date_header` of the missing
`httpcache/utils.py` renders a timestamp as RFC 1123 date text (which is one
of the accepted formats, hence `valid`). -/
def build_date_header (t : Nat) : DateText := .valid t

/-- Result of `expires_from_cache_control`, modelled from the spec: a reject
sentinel (`no-store` / `no-cache` / `max-age=0`), a fallback sentinel
(no recognized directive), or a computed expiry timestamp. -/
inductive CCResult where
  | reject
  | fallback
  | expiresAt (t : Nat)
  deriving DecidableEq, Repr

/-- Split a character list at every comma, like Python `text.split(",")`. -/
def splitOnComma : List Char → List (List Char)
  | [] => [[]]
  | c :: cs =>
    let r := splitOnComma cs
    if c = ',' then [] :: r
    else
      match r with
      | [] => [[c]]
      | h :: t => (c :: h) :: t

/-- Split a character list at the first `=`, like Python `str.partition`:
with no `=` present the second component is empty. -/
def breakEq : List Char → List Char × List Char
  | [] => ([], [])
  | c :: cs =>
    if c = '=' then ([], cs)
    else
      let r := breakEq cs
      (c :: r.1, r.2)

/-- Remove leading and trailing whitespace, like Python `str.strip()`. -/
def trimChars (cs : List Char) : List Char :=
  ((cs.dropWhile Char.isWhitespace).reverse.dropWhile Char.isWhitespace).reverse

/-- Parse a digit string as a natural number, none when any character is not
a digit or the string is empty (Python `int()` raising `ValueError`). -/
def natParse (cs : List Char) : Option Nat :=
  if cs.isEmpty then none
  else if cs.all Char.isDigit then
    some (cs.foldl (fun acc c => 10 * acc + (c.toNat - '0'.toNat)) 0)
  else none

/-- Last binding for a name, like a Python dict built by repeated assignment. -/
def lookupLast (m : List (List Char × List Char)) (name : List Char) : Option (List Char) :=
  match m with
  | [] => none
  | p :: rest =>
    match lookupLast rest name with
    | some v => some v
    | none => if p.1 = name then some p.2 else none

/-- Modelled from the spec: `expires_from_cache_control` of the missing
`httpcache/utils.py`.  Parses the comma-separated directive list of a
Cache-Control header value: `no-store` or `no-cache` yield the reject
sentinel; `max-age=N` yields `now + N` seconds, except that `max-age=0` (and
an unparseable max-age value) is a reject; a directive list in which nothing
is recognized yields the fallback sentinel; unrecognized tokens are ignored. -/
def expires_from_cache_control (cc : String) (now : Nat) : CCResult :=
  let pairs := (splitOnComma cc.data).map (fun seg =>
    let nv := breakEq seg
    (trimChars nv.1, trimChars nv.2))
  if (lookupLast pairs "no-store".data).isSome then .reject
  else if (lookupLast pairs "no-cache".data).isSome then .reject
  else
    match lookupLast pairs "max-age".data with
    | some v =>
      match natParse v with
      | none => .reject
      | some 0 => .reject
      | some n => .expiresAt (now + n)
    | none => .fallback

/-- Modelled from the spec: `url_contains_query` of the missing
`httpcache/utils.py` is true when the URL has a non-empty query component
(text after the first `?`, not counting any fragment after `#`). -/
def url_contains_query (url : String) : Bool :=
  let beforeFrag := url.data.takeWhile (fun c => !(c == '#'))
  let fromQmark := beforeFrag.dropWhile (fun c => !(c == '?'))
  match fromQmark with
  | [] => false
  | _ :: query => !query.isEmpty

/-- Request headers read or written by the cache: `Accept-Language` (read on
retrieval) and `If-Modified-Since` (written for speculative revalidation). -/
structure ReqHeaders where
  acceptLanguage : Option String
  ifModifiedSince : Option DateText
  deriving DecidableEq, Repr

/-- A prepared request: `method`, `url`, and its header map. -/
structure Request where
  method : String
  url : String
  headers : ReqHeaders
  deriving DecidableEq, Repr

/-- Response headers read by the cache: `Date`, `Cache-Control`, `Expires`
and `Content-Language`.  Date-valued headers carry `DateText`; the
Cache-Control value is kept as raw text for the directive parser. -/
structure RespHeaders where
  date : Option DateText
  cacheControl : Option String
  expires : Option DateText
  contentLanguage : Option String
  deriving DecidableEq, Repr

/-- An HTTP response: status code, URL, the originating request, headers. -/
structure Response where
  status_code : Nat
  url : String
  request : Request
  headers : RespHeaders
  deriving DecidableEq, Repr

/-- A cache entry, as stored by `HTTPCache.store`: the response plus the
`creation` and `expiry` timestamps (either may be Python `None`). -/
structure Entry where
  response : Response
  creation : Option Nat
  expiry : Option Nat
  deriving DecidableEq, Repr

/-- Modelled from the spec (Ordered Store, the missing
`httpcache/backends.py` `RecentOrderedDict`): a recency-ordered key-value
container, represented as an association list ordered oldest first.  `get`
and `set` promote the touched key to most-recently-used; `length` and key
enumeration are always available for this in-process variant. -/
abbrev Store := List (String × Entry)

/-- First binding for a key, oldest-first (keys are unique in reachable
stores, so this is plain dictionary lookup). -/
def Store.find : Store → String → Option Entry
  | [], _ => none
  | (k', v) :: t, k => if k' = k then some v else Store.find t k

/-- Modelled from the spec: `delete` removes the binding for a key. -/
def Store.delete : Store → String → Store
  | [], _ => []
  | (k1, v) :: t, k => if k1 = k then Store.delete t k else (k1, v) :: Store.delete t k

/-- Modelled from the spec: `set` inserts or updates a binding and marks it
most-recently-used (newest position is the end of the list). -/
def Store.set (c : Store) (k : String) (v : Entry) : Store :=
  Store.delete c k ++ [(k, v)]

/-- Modelled from the spec: `get` returns the binding for a key and, on a
hit, promotes that key to most-recently-used. -/
def Store.get (c : Store) (k : String) : Option Entry × Store :=
  match Store.find c k with
  | none => (none, c)
  | some v => (some v, Store.delete c k ++ [(k, v)])

/-- Key sequence, oldest to newest (`self._cache.keys()`). -/
def Store.keys (c : Store) : List String := c.map (fun p => p.1)

/-- `CACHEABLE_RCS` of cache.py: status codes RFC 2616 allows caching. -/
def CACHEABLE_RCS : List Nat := [200, 203, 300, 301, 410]

/-- `CACHEABLE_VERBS` of cache.py. -/
def CACHEABLE_VERBS : List String := ["GET", "HEAD", "OPTIONS"]

/-- `NON_INVALIDATING_VERBS` of cache.py (aliases `CACHEABLE_VERBS`). -/
def NON_INVALIDATING_VERBS : List String := CACHEABLE_VERBS

/-- The inner utility `date_header_or_default` of `HTTPCache.store`
(cache.py lines 62-70): absent header yields the default; a present header
yields its parse result (which is Python `None` when unparseable). -/
def date_header_or_default (h : Option DateText) (default : Option Nat) : Option Nat :=
  match h with
  | none => default
  | some d => parse_date_header d

/-- The `creation` timestamp computed by `HTTPCache.store` (cache.py lines
81-83): the parsed `Date` header, defaulting to the current time when the
header is absent. -/
def store_creation (now : Nat) (response : Response) : Option Nat :=
  date_header_or_default response.headers.date (some now)

/-- The `expiry` timestamp computed by `HTTPCache.store` (cache.py lines
85-98): from `Cache-Control` when that header is present (cache.py observes
the helper's result only through `is None`, so both sentinels arrive as
Python `None`); from `Expires` only when no `Cache-Control` header exists. -/
def store_expiry (now : Nat) (response : Response) : Option Nat :=
  match response.headers.cacheControl with
  | some ccv =>
    match expires_from_cache_control ccv now with
    | .expiresAt t => some t
    | _ => none
  | none => date_header_or_default response.headers.expires none

/-- Python `'{}'.format` renders `None` as the text `None` (cache.py line
113, the computed composite key). -/
def formatOptStr : Option String → String
  | none => "None"
  | some s => s

/-- One iteration step of the first eviction loop of
`HTTPCache.__reduce_cache_count` (cache.py lines 201-208): walk the key
snapshot oldest to newest; `get(key, {})` promotes a hit; an entry whose
`expiry` is `None` (or a missing key, whose default `{}` also has no
`expiry`) is deleted and decrements the remaining overflow; after each
iteration the loop returns early once the overflow reaches zero.  Result:
(remaining overflow, store, early-return flag). -/
def pass1 : List String → Nat → Store → Nat × Store × Bool
  | [], td, c => (td, c, false)
  | k :: ks, td, c =>
    let g := Store.get c k
    let specish :=
      match g.1 with
      | some e => e.expiry.isNone
      | none => true
    let td2 := if specish then td - 1 else td
    let c2 := if specish then Store.delete g.2 k else g.2
    if td2 = 0 then (td2, c2, true) else pass1 ks td2 c2

/-- The second eviction loop of `HTTPCache.__reduce_cache_count` (cache.py
lines 210-213): delete the first `td` keys of a fresh key snapshot. -/
def pass2 : List String → Nat → Store → Store
  | _, 0, c => c
  | [], _ + 1, c => c
  | k :: ks, n + 1, c => pass2 ks n (Store.delete c k)

/-- `HTTPCache.__reduce_cache_count` (cache.py lines 182-214): no-op while
the store is within capacity, otherwise the two eviction loops.  (The
memcached `TypeError` escape for an unavailable length cannot fire for the
in-process backend modelled here, whose length is always available.) -/
def reduce_cache_count (capacity : Nat) (c : Store) : Store :=
  if c.length ≤ capacity then c
  else
    match pass1 (Store.keys c) (c.length - capacity) c with
    | (_, c1, true) => c1
    | (td1, c1, false) => pass2 (Store.keys c1) td1 c1

/-- The write tail of `HTTPCache.store` (cache.py lines 105-122): fetch
`Content-Language`, compute the composite key (which the source then never
uses), store the entry under the bare URL, and run the eviction pass. -/
def storeWrite (capacity : Nat) (response : Response) (cache : Store)
    (creation expiry : Option Nat) : Bool × Store :=
  let _key := response.url ++ "," ++ formatOptStr response.headers.contentLanguage
  let c1 := Store.set cache response.url ⟨response, creation, expiry⟩
  (true, reduce_cache_count capacity c1)

/-- `HTTPCache.store` from the expiry-versus-creation comparison on
(cache.py lines 100-122).  Python 3 raises `TypeError` when the computed
`expiry` is a datetime but `creation` is `None` (a present but unparseable
`Date` header), because `datetime <= None` is not ordered. -/
def store_after_expiry (capacity : Nat) (response : Response) (cache : Store)
    (creation expiry : Option Nat) : Except PyErr (Bool × Store) :=
  match expiry, creation with
  | some _, none => .error .typeError
  | some x, some cr =>
    if x ≤ cr then .ok (false, cache)
    else .ok (storeWrite capacity response cache creation (some x))
  | none, _ =>
    if response.request.method = "GET" ∧ url_contains_query response.url then
      .ok (false, cache)
    else .ok (storeWrite capacity response cache creation none)

/-- `HTTPCache.store` (cache.py lines 53-122): status and method gates,
`creation` from the `Date` header, `expiry` from `Cache-Control` (a `None`
result — either sentinel — aborts storage) or else from `Expires`, then the
write tail. -/
def store (capacity now : Nat) (response : Response) (cache : Store) :
    Except PyErr (Bool × Store) :=
  if response.status_code ∉ CACHEABLE_RCS then .ok (false, cache)
  else if response.request.method ∉ CACHEABLE_VERBS then .ok (false, cache)
  else
    let creation := store_creation now response
    match response.headers.cacheControl with
    | some ccv =>
      match expires_from_cache_control ccv now with
      | .expiresAt t => store_after_expiry capacity response cache creation (some t)
      | _ => .ok (false, cache)
    | none =>
      store_after_expiry capacity response cache creation
        (date_header_or_default response.headers.expires none)

/-- `HTTPCache.handle_304` (cache.py lines 124-136): look up the response's
URL (`get` promotes a hit) and return the stored response unconditionally,
none when no entry exists. -/
def handle_304 (response : Response) (cache : Store) : Option Response × Store :=
  let g := Store.get cache response.url
  (g.1.map Entry.response, g.2)

/-- Python `al.strip(', *')`: remove every leading and trailing comma, space
or asterisk (cache.py line 158). -/
def stripALChars (s : String) : String :=
  let p : Char → Bool := fun c => c == ',' || c == ' ' || c == '*'
  String.mk (((s.data.dropWhile p).reverse.dropWhile p).reverse)

/-- `HTTPCache.retrieve` (cache.py lines 138-180).  The lookup key is the
URL joined with the trimmed `Accept-Language` (an absent header is Python
`None`, so `None.strip` raises `AttributeError`); a miss returns none; an
unsafe method deletes the bare URL and returns none; a speculative hit
injects `If-Modified-Since` built from `creation` (a `None` creation makes
`build_date_header` raise) and returns none; a fresh hit returns the stored
response while an expired hit deletes the bare URL and returns none. -/
def retrieve (now : Nat) (request : Request) (cache : Store) :
    Except PyErr (Option Response × Request × Store) :=
  let url := request.url
  match request.headers.acceptLanguage with
  | none => .error .attributeError
  | some al0 =>
    let al := stripALChars al0
    let key := url ++ "," ++ al
    let g := Store.get cache key
    match g.1 with
    | none => .ok (none, request, g.2)
    | some entry =>
      if request.method ∉ NON_INVALIDATING_VERBS then
        .ok (none, request, Store.delete g.2 url)
      else
        match entry.expiry with
        | none =>
          match entry.creation with
          | none => .error .attributeError
          | some cr =>
            let req2 := { request with
              headers := { request.headers with
                ifModifiedSince := some (build_date_header cr) } }
            .ok (none, req2, g.2)
        | some x =>
          if now ≤ x then .ok (some entry.response, request, g.2)
          else .ok (none, request, Store.delete g.2 url)

/-- The test URL used by the concrete runs below. -/
def urlT : String := "http://test.example/"

/-- A request for `urlT` with the given method and Accept-Language. -/
def reqOf (method : String) (al : Option String) : Request :=
  ⟨method, urlT, ⟨al, none⟩⟩

/-- A 200 GET response for `urlT` carrying only a Cache-Control header. -/
def respCC (cc : String) : Response :=
  ⟨200, urlT, reqOf "GET" none, ⟨none, some cc, none, none⟩⟩

/-- The entry `store` writes for `respCC "max-age=3600"` at time 1000. -/
def entryFresh : Entry := ⟨respCC "max-age=3600", some 1000, some 4600⟩

/-- A 200 GET response for `urlT` with only a valid Date header and no
Cache-Control or Expires (a speculative store). -/
def respSpec : Response :=
  ⟨200, urlT, reqOf "GET" none, ⟨some (.valid 784111777), none, none, none⟩⟩

/-- The entry `store` writes for `respSpec`. -/
def entrySpec : Entry := ⟨respSpec, some 784111777, none⟩

/-- A 404 response (uncacheable status). -/
def resp404 : Response :=
  ⟨404, urlT, reqOf "GET" none, ⟨none, none, none, none⟩⟩

/-- A 200 GET response with an unrecognized Cache-Control directive, a valid
Date of 100 and a valid Expires of 9999. -/
def respC7 : Response :=
  ⟨200, urlT, reqOf "GET" none,
    ⟨some (.valid 100), some "private", some (.valid 9999), none⟩⟩

/-- A 200 GET response for URL `u` with `Cache-Control: max-age=3600`. -/
def freshResp (u : String) : Response :=
  ⟨200, u, ⟨"GET", u, ⟨none, none⟩⟩, ⟨none, some "max-age=3600", none, none⟩⟩

/-- A 200 GET response for URL `u` with no caching headers (speculative). -/
def specResp (u : String) : Response :=
  ⟨200, u, ⟨"GET", u, ⟨none, none⟩⟩, ⟨none, none, none, none⟩⟩

/-- The store after a `store` call, unchanged when the call raised. -/
def stepStore (capacity now : Nat) (resp : Response) (c : Store) : Store :=
  match store capacity now resp c with
  | .ok p => p.2
  | .error _ => c

/-- The boolean a `store` call returned, none when the call raised. -/
def storeRC (capacity now : Nat) (resp : Response) (c : Store) : Option Bool :=
  match store capacity now resp c with
  | .ok p => some p.1
  | .error _ => none

/-- The entry invariant of the specification: whenever an entry's `expiry`
is present, its `creation` is also present and strictly earlier. -/
def EntryInv (c : Store) : Prop :=
  ∀ k e, Store.find c k = some e → ∀ x, e.expiry = some x →
    ∃ cr, e.creation = some cr ∧ cr < x

/-- Every entry value of `c2` is an entry value of `c`: no operation that
maps `c` to `c2` manufactured a new entry. -/
def EntryValSub (c2 c : Store) : Prop :=
  ∀ k e, Store.find c2 k = some e → ∃ k2, Store.find c k2 = some e

/-- Cache states reachable from the empty store through successful public
operations (`store`, `retrieve`, `handle_304`) at any capacity and time. -/
inductive Reachable : Store → Prop where
  | empty : Reachable []
  | store_step {c : Store} (capacity now : Nat) (resp : Response) {b : Bool} {c2 : Store} :
      Reachable c → store capacity now resp c = .ok (b, c2) → Reachable c2
  | retrieve_step {c : Store} (now : Nat) (req : Request)
      {r : Option Response} {req2 : Request} {c2 : Store} :
      Reachable c → retrieve now req c = .ok (r, req2, c2) → Reachable c2
  | handle_step {c : Store} (resp : Response) :
      Reachable c → Reachable (handle_304 resp c).2


/-- A 200 GET response with a late Date (10000) and `max-age=3600`: at time
0 its computed expiry (3600) precedes its creation. -/
def respStale : Response :=
  ⟨200, urlT, reqOf "GET" none, ⟨some (.valid 10000), some "max-age=3600", none, none⟩⟩

/-- Eviction scenario A, steps 1-6: four fresh entries, one speculative
entry, one more fresh entry, all stored at capacity 5. -/
def sA1 : Store := stepStore 5 0 (freshResp "u0") []

/-- Scenario A after the second store. -/
def sA2 : Store := stepStore 5 0 (freshResp "u1") sA1

/-- Scenario A after the third store. -/
def sA3 : Store := stepStore 5 0 (freshResp "u2") sA2

/-- Scenario A after the fourth store. -/
def sA4 : Store := stepStore 5 0 (freshResp "u3") sA3

/-- Scenario A after the speculative store. -/
def sA5 : Store := stepStore 5 0 (specResp "uother") sA4

/-- Scenario A after the sixth store (triggers eviction). -/
def sA6 : Store := stepStore 5 0 (freshResp "u5") sA5

/-- Eviction scenario B: six fresh entries stored in order at capacity 5. -/
def sB1 : Store := stepStore 5 0 (freshResp "u0") []

/-- Scenario B after the second store. -/
def sB2 : Store := stepStore 5 0 (freshResp "u1") sB1

/-- Scenario B after the third store. -/
def sB3 : Store := stepStore 5 0 (freshResp "u2") sB2

/-- Scenario B after the fourth store. -/
def sB4 : Store := stepStore 5 0 (freshResp "u3") sB3

/-- Scenario B after the fifth store. -/
def sB5 : Store := stepStore 5 0 (freshResp "u4") sB4

/-- Scenario B after the sixth store (triggers eviction). -/
def sB6 : Store := stepStore 5 0 (freshResp "u5") sB5

/-- C1.  The claim asserts that after storing a `max-age=3600` response for
URL `U` at time T0 the entry is returned by `retrieve` at T0+1800 and
deleted by `retrieve` at T0+7200.  Evaluating the code at T0 = 1000 with a
GET request carrying `Accept-Language: en` shows otherwise: `store` succeeds
and files the entry under the bare URL, but `retrieve` builds its lookup key
as URL + "," + trimmed Accept-Language, so both retrievals miss — each
returns none, leaves the request untouched, and leaves the entry in place
(in particular nothing is deleted at T0+7200). -/
theorem C1_store_then_retrieve_misses :
    store 50 1000 (respCC "max-age=3600") [] = .ok (true, [(urlT, entryFresh)]) ∧
    retrieve 2800 (reqOf "GET" (some "en")) [(urlT, entryFresh)] =
      .ok (none, reqOf "GET" (some "en"), [(urlT, entryFresh)]) ∧
    retrieve 8200 (reqOf "GET" (some "en")) [(urlT, entryFresh)] =
      .ok (none, reqOf "GET" (some "en"), [(urlT, entryFresh)]) := by
  refine ⟨rfl, rfl, rfl⟩

/-- C2.  The claim asserts the public operations never raise, in particular
that `retrieve` returns normally when the request has no Accept-Language
header.  The code runs `al.strip(', *')` on the header's default `None`,
which raises `AttributeError` before the cache is even consulted — on an
empty store and on a store holding an entry for the requested URL alike. -/
theorem C2_retrieve_raises_without_accept_language :
    retrieve 0 (reqOf "GET" none) [] = .error .attributeError ∧
    retrieve 2800 (reqOf "GET" none) [(urlT, entryFresh)] = .error .attributeError := by
  refine ⟨rfl, rfl⟩

/-- C3.  The claim asserts that a POST `retrieve` for a URL with a stored
entry deletes that entry and returns none.  Evaluating the code: the stored
entry lives under the bare URL, the POST retrieval looks up
URL + "," + Accept-Language, misses, and returns none before ever reaching
the unsafe-method invalidation — the entry survives. -/
theorem C3_post_does_not_invalidate :
    store 50 1000 (respCC "max-age=3600") [] = .ok (true, [(urlT, entryFresh)]) ∧
    retrieve 1500 (reqOf "POST" (some "en")) [(urlT, entryFresh)] =
      .ok (none, reqOf "POST" (some "en"), [(urlT, entryFresh)]) ∧
    Store.find [(urlT, entryFresh)] urlT = some entryFresh := by
  refine ⟨rfl, rfl, rfl⟩

/-- C4.  The claim asserts that retrieving a stored speculative entry sets
the request's If-Modified-Since header to the entry's creation date and
returns none.  Evaluating the code: the speculative store succeeds (entry
under the bare URL, creation from the Date header), but the GET retrieval
with `Accept-Language: en` looks up the composite key, misses, and returns
none with the request completely unmodified — no If-Modified-Since header
is injected. -/
theorem C4_speculative_retrieve_sets_no_header :
    store 50 784111800 respSpec [] = .ok (true, [(urlT, entrySpec)]) ∧
    retrieve 784111900 (reqOf "GET" (some "en")) [(urlT, entrySpec)] =
      .ok (none, reqOf "GET" (some "en"), [(urlT, entrySpec)]) ∧
    (reqOf "GET" (some "en")).headers.ifModifiedSince = none := by
  refine ⟨rfl, rfl, rfl⟩

/-- C5.  `handle_304` returns the stored response for the response's URL
unconditionally — it never consults `expiry`, `creation` or any clock, so
fresh, stale and speculative entries are all returned — and returns none
exactly when no entry exists for that key. -/
theorem C5_handle_304_unconditional (resp : Response) (c : Store) :
    (handle_304 resp c).1 = (Store.find c resp.url).map Entry.response := by
  unfold handle_304 Store.get
  cases h : Store.find c resp.url <;> simp [h]

/-- C6.  `store` returns false for every response whose status code is
outside {200, 203, 300, 301, 410} and for every response whose originating
request method is outside {GET, HEAD, OPTIONS}. -/
theorem C6_store_rejects_status_and_method (capacity now : Nat) (resp : Response)
    (c : Store)
    (h : resp.status_code ∉ CACHEABLE_RCS ∨ resp.request.method ∉ CACHEABLE_VERBS) :
    store capacity now resp c = .ok (false, c) := by
  unfold store
  rcases h with h | h
  · simp [h]
  · by_cases hs : resp.status_code ∈ CACHEABLE_RCS
    · simp [hs, h]
    · simp [hs]

/-- Witness for C6 at a concrete input: a 404 GET response. -/
theorem C6_witness :
    resp404.status_code ∉ CACHEABLE_RCS ∧
    store 50 0 resp404 [] = .ok (false, []) :=
  ⟨by decide, C6_store_rejects_status_and_method 50 0 resp404 [] (Or.inl (by decide))⟩

/-- C7 counterexample.  The claim asserts that a Cache-Control header whose
directive list contains nothing recognized makes `store` fall back to the
Expires header.  Concrete input: `Cache-Control: private` (which the
directive parser maps to the fallback sentinel), `Date` denoting 100, and a
parseable `Expires` denoting 9999.  The claim then predicts a stored entry
with expiry 9999 (and `store` returning true); the code instead returns
false and stores nothing, because cache.py aborts on any non-timestamp
result of `expires_from_cache_control` and consults Expires only when no
Cache-Control header exists at all. -/
theorem C7_counterexample :
    expires_from_cache_control "private" 0 = CCResult.fallback ∧
    date_header_or_default respC7.headers.expires none = some 9999 ∧
    store_creation 0 respC7 = some 100 ∧
    store 50 0 respC7 [] = .ok (false, []) := by
  refine ⟨rfl, rfl, rfl, rfl⟩

/-- C7 amended.  When a Cache-Control header is present but its directive
list yields the fallback sentinel (nothing recognized), `store` treats it
exactly like a reject: it returns false and stores nothing, and the Expires
header is never consulted.  Expires feeds the expiry only when no
Cache-Control header is present at all. -/
theorem C7_amended_fallback_rejects (capacity now : Nat) (resp : Response)
    (c : Store) (ccv : String)
    (hcc : resp.headers.cacheControl = some ccv)
    (hfb : expires_from_cache_control ccv now = .fallback) :
    store capacity now resp c = .ok (false, c) := by
  unfold store
  by_cases h1 : resp.status_code ∈ CACHEABLE_RCS
  · by_cases h2 : resp.request.method ∈ CACHEABLE_VERBS
    · simp [h1, h2, hcc, hfb]
    · simp [h1, h2]
  · simp [h1]

/-- Witness for the amended C7 at a concrete input. -/
theorem C7_amended_witness :
    respC7.headers.cacheControl = some "private" ∧
    expires_from_cache_control "private" 0 = CCResult.fallback ∧
    store 50 0 respC7 [] = .ok (false, []) :=
  ⟨rfl, rfl, C7_amended_fallback_rejects 50 0 respC7 [] "private" rfl rfl⟩

/-- C10.  `store` is atomic on rejection: every path on which it returns
false exits before the write and the eviction pass, so the cache — contents
and recency order alike — is returned exactly as it was received. -/
theorem C10_store_atomic_on_rejection (capacity now : Nat) (resp : Response)
    (c c2 : Store) (h : store capacity now resp c = .ok (false, c2)) : c2 = c := by
  unfold store store_after_expiry storeWrite at h
  repeat' split at h
  all_goals (try simp_all)
  all_goals
    rcases hcr : store_creation now resp with _ | cr <;>
      rw [hcr] at h <;> (try split at h) <;> (try split at h) <;> simp_all

/-- Witness for C10 at a concrete input: storing a 404 response into the
empty store is rejected and leaves the store empty. -/
theorem C10_witness :
    store 50 0 resp404 [] = .ok (false, []) ∧ ([] : Store) = [] :=
  ⟨rfl, C10_store_atomic_on_rejection 50 0 resp404 [] [] rfl⟩


/-- Lookup in the empty store. -/
@[simp] theorem Store.find_nil (k : String) : Store.find [] k = none := rfl

/-- Lookup at a cons cell. -/
@[simp] theorem Store.find_cons (k1 : String) (v : Entry) (t : Store) (k : String) :
    Store.find ((k1, v) :: t) k = if k1 = k then some v else Store.find t k := rfl

/-- Deletion at a cons cell. -/
@[simp] theorem Store.delete_cons (k1 : String) (v : Entry) (t : Store) (k : String) :
    Store.delete ((k1, v) :: t) k =
      if k1 = k then Store.delete t k else (k1, v) :: Store.delete t k := rfl

/-- Deleting a key removes exactly its binding. -/
theorem Store.find_delete (c : Store) (k k2 : String) :
    Store.find (Store.delete c k) k2 = if k2 = k then none else Store.find c k2 := by
  induction c with
  | nil => simp [Store.delete, ite_self]
  | cons p t ih =>
    obtain ⟨k1, v⟩ := p
    by_cases h1 : k1 = k
    · subst h1
      by_cases h2 : k2 = k1
      · subst h2; simp [ih]
      · simp [h2, ih, Ne.symm h2]
    · by_cases h2 : k2 = k
      · subst h2
        have h3 : k1 ≠ k2 := h1
        simp [h1, h3, ih]
      · simp [h1, h2, ih]

/-- Lookup that succeeds on the left part of an append. -/
theorem Store.find_append_left {a : Store} {k : String} {v : Entry}
    (h : Store.find a k = some v) (b : Store) : Store.find (a ++ b) k = some v := by
  induction a with
  | nil => simp at h
  | cons p t ih =>
    obtain ⟨k1, w⟩ := p
    by_cases h1 : k1 = k <;> simp [h1] at h ⊢
    · exact h
    · exact ih h

/-- Lookup that misses the left part of an append. -/
theorem Store.find_append_right {a : Store} {k : String}
    (h : Store.find a k = none) (b : Store) : Store.find (a ++ b) k = Store.find b k := by
  induction a with
  | nil => simp
  | cons p t ih =>
    obtain ⟨k1, w⟩ := p
    by_cases h1 : k1 = k <;> simp [h1] at h ⊢
    exact ih h

/-- `set` updates exactly the touched key. -/
theorem Store.find_set (c : Store) (k k2 : String) (v : Entry) :
    Store.find (Store.set c k v) k2 = if k2 = k then some v else Store.find c k2 := by
  unfold Store.set
  by_cases h : k2 = k
  · subst h
    have hd : Store.find (Store.delete c k2) k2 = none := by
      rw [Store.find_delete]; simp
    rw [Store.find_append_right hd]
    simp
  · have hd : Store.find (Store.delete c k) k2 = Store.find c k2 := by
      rw [Store.find_delete]; simp [h]
    cases hc : Store.find c k2 with
    | none =>
      rw [Store.find_append_right (hd.trans hc)]
      simp [h, Ne.symm h]
    | some w =>
      rw [Store.find_append_left (hd.trans hc)]
      simp [h]

/-- The value component of `get` is plain lookup. -/
theorem Store.get_fst (c : Store) (k : String) :
    (Store.get c k).1 = Store.find c k := by
  unfold Store.get
  cases h : Store.find c k <;> simp

/-- Promotion by `get` preserves every lookup: it moves one binding without
changing any key's value. -/
theorem Store.find_get (c : Store) (k k2 : String) :
    Store.find ((Store.get c k).2) k2 = Store.find c k2 := by
  unfold Store.get
  cases h : Store.find c k with
  | none => simp
  | some v =>
    simp only
    by_cases h2 : k2 = k
    · subst h2
      have hd : Store.find (Store.delete c k2) k2 = none := by
        rw [Store.find_delete]; simp
      rw [Store.find_append_right hd]
      simp [h]
    · have hd : Store.find (Store.delete c k) k2 = Store.find c k2 := by
        rw [Store.find_delete]; simp [h2]
      cases hc : Store.find c k2 with
      | none =>
        rw [Store.find_append_right (hd.trans hc)]
        simp [Ne.symm h2]
      | some w =>
        rw [Store.find_append_left (hd.trans hc)]

/-- Key sequence at a cons cell. -/
@[simp] theorem Store.keys_cons (p : String × Entry) (t : Store) :
    Store.keys (p :: t) = p.1 :: Store.keys t := rfl

/-- Key sequence of the empty store. -/
@[simp] theorem Store.keys_nil : Store.keys [] = [] := rfl

/-- A key is enumerated exactly when it has a binding. -/
theorem Store.mem_keys_iff_find (c : Store) (k : String) :
    k ∈ Store.keys c ↔ (Store.find c k).isSome := by
  induction c with
  | nil => simp
  | cons p t ih =>
    obtain ⟨k1, v⟩ := p
    by_cases h : k1 = k
    · subst h; simp
    · simp [h, Ne.symm h, ih]

/-- The key sequence of a deletion is the filtered key sequence. -/
theorem Store.keys_delete (c : Store) (k : String) :
    Store.keys (Store.delete c k) = (Store.keys c).filter (fun x => decide (x ≠ k)) := by
  induction c with
  | nil => rfl
  | cons p t ih =>
    obtain ⟨k1, v⟩ := p
    by_cases h : k1 = k <;> simp [h, List.filter_cons, ih]

/-- Deletion preserves distinctness of keys. -/
theorem Store.nodup_keys_delete (c : Store) (k : String)
    (h : (Store.keys c).Nodup) : (Store.keys (Store.delete c k)).Nodup := by
  rw [Store.keys_delete]
  exact h.filter _

/-- A deleted key is never enumerated afterwards. -/
theorem Store.not_mem_keys_delete (c : Store) (k : String) :
    k ∉ Store.keys (Store.delete c k) := by
  rw [Store.mem_keys_iff_find, Store.find_delete]
  simp

/-- Key sequence of an append. -/
@[simp] theorem Store.keys_append (a b : Store) :
    Store.keys (a ++ b) = Store.keys a ++ Store.keys b := by
  simp [Store.keys]

/-- `set` preserves distinctness of keys. -/
theorem Store.nodup_keys_set (c : Store) (k : String) (v : Entry)
    (h : (Store.keys c).Nodup) : (Store.keys (Store.set c k v)).Nodup := by
  unfold Store.set
  rw [Store.keys_append]
  rw [List.nodup_append]
  refine ⟨Store.nodup_keys_delete c k h, List.nodup_singleton k, ?_⟩
  intro a ha hb
  simp [Store.keys] at hb
  subst hb
  exact Store.not_mem_keys_delete c a ha

/-- Promotion by `get` preserves distinctness of keys. -/
theorem Store.nodup_keys_get (c : Store) (k : String)
    (h : (Store.keys c).Nodup) : (Store.keys ((Store.get c k).2)).Nodup := by
  unfold Store.get
  cases hf : Store.find c k with
  | none => simpa
  | some v =>
    simp only [Store.keys_append]
    rw [List.nodup_append]
    refine ⟨Store.nodup_keys_delete c k h, by simp [Store.keys], ?_⟩
    intro a ha hb
    simp [Store.keys] at hb
    subst hb
    exact Store.not_mem_keys_delete c a ha


/-- Deleting an absent key is a no-op. -/
theorem Store.delete_not_mem (c : Store) (k : String) (hk : k ∉ Store.keys c) :
    Store.delete c k = c := by
  induction c with
  | nil => rfl
  | cons p t ih =>
    obtain ⟨k1, v⟩ := p
    simp only [Store.keys_cons, List.mem_cons, not_or] at hk
    simp [Ne.symm hk.1, ih hk.2]

/-- Deleting a present key from a duplicate-free store removes exactly one
binding. -/
theorem Store.length_delete (c : Store) (k : String)
    (hnd : (Store.keys c).Nodup) (hk : k ∈ Store.keys c) :
    (Store.delete c k).length + 1 = c.length := by
  induction c with
  | nil => simp at hk
  | cons p t ih =>
    obtain ⟨k1, v⟩ := p
    simp only [Store.keys_cons, List.nodup_cons] at hnd
    by_cases h : k1 = k
    · subst h
      rw [Store.delete_cons, if_pos rfl, Store.delete_not_mem t k1 hnd.1]
      simp
    · simp only [Store.keys_cons, List.mem_cons] at hk
      rcases hk with hk | hk
      · exact absurd hk.symm h
      · simp only [Store.delete_cons, if_neg h, List.length_cons]
        rw [← ih hnd.2 hk]

/-- Promotion by `get` preserves the number of bindings on duplicate-free
stores. -/
theorem Store.length_get (c : Store) (k : String)
    (hnd : (Store.keys c).Nodup) : ((Store.get c k).2).length = c.length := by
  unfold Store.get
  cases hf : Store.find c k with
  | none => simp
  | some v =>
    have hk : k ∈ Store.keys c := by
      rw [Store.mem_keys_iff_find, hf]; rfl
    have := Store.length_delete c k hnd hk
    simp only [List.length_append, List.length_cons, List.length_nil]
    omega

/-- First eviction loop on an empty snapshot: fall through. -/
theorem pass1_nil (td : Nat) (c : Store) : pass1 [] td c = (td, c, false) := rfl

/-- First eviction loop step on a speculative hit: promotion, deletion,
decrement, early-return check. -/
theorem pass1_cons_spec (k : String) (ks : List String) (td : Nat) (c : Store)
    (e : Entry) (hf : Store.find c k = some e) (hsp : e.expiry = none) :
    pass1 (k :: ks) td c =
      if td - 1 = 0 then (td - 1, Store.delete (Store.get c k).2 k, true)
      else pass1 ks (td - 1) (Store.delete (Store.get c k).2 k) := by
  simp only [pass1, Store.get_fst, hf, hsp, Option.isNone_none, if_true]

/-- First eviction loop step on a fresh hit: promotion only, early-return
check. -/
theorem pass1_cons_fresh (k : String) (ks : List String) (td : Nat) (c : Store)
    (e : Entry) (x : Nat) (hf : Store.find c k = some e) (hsp : e.expiry = some x) :
    pass1 (k :: ks) td c =
      if td = 0 then (td, (Store.get c k).2, true)
      else pass1 ks td (Store.get c k).2 := by
  simp [pass1, Store.get_fst, hf, hsp]

/-- First eviction loop step on a missing key: `get(key, {})` misses, the
empty dict has no expiry, so the loop deletes (a no-op) and decrements. -/
theorem pass1_cons_miss (k : String) (ks : List String) (td : Nat) (c : Store)
    (hf : Store.find c k = none) :
    pass1 (k :: ks) td c =
      if td - 1 = 0 then (td - 1, Store.delete c k, true)
      else pass1 ks (td - 1) (Store.delete c k) := by
  have hg : Store.get c k = (none, c) := by unfold Store.get; rw [hf]
  simp only [pass1, hg, if_true]

/-- Accounting for the first eviction loop on a duplicate-free store whose
snapshot keys are all present: keys stay duplicate-free, each decrement of
the overflow corresponds to exactly one removed binding, the overflow never
increases, and an early return means the overflow reached zero. -/
theorem pass1_accounting :
    ∀ (ks : List String) (td : Nat) (c : Store) (td1 : Nat) (c1 : Store) (e1 : Bool),
      pass1 ks td c = (td1, c1, e1) → 1 ≤ td → ks.Nodup →
      (∀ k ∈ ks, k ∈ Store.keys c) → (Store.keys c).Nodup →
      (Store.keys c1).Nodup ∧ c1.length + (td - td1) = c.length ∧ td1 ≤ td ∧
        (e1 = true → td1 = 0) := by
  intro ks
  induction ks with
  | nil =>
    intro td c td1 c1 e1 hp _ _ _ hndc
    rw [pass1_nil, Prod.mk.injEq, Prod.mk.injEq] at hp
    obtain ⟨rfl, rfl, rfl⟩ := hp
    exact ⟨hndc, by omega, le_refl td, by simp⟩
  | cons k ks ih =>
    intro td c td1 c1 e1 hp h1 hnd hmem hndc
    have hkmem : k ∈ Store.keys c := hmem k (by simp)
    have hfs : (Store.find c k).isSome := (Store.mem_keys_iff_find c k).1 hkmem
    simp only [List.nodup_cons] at hnd
    cases hf : Store.find c k with
    | none => rw [hf] at hfs; simp at hfs
    | some e =>
      have hndg : (Store.keys ((Store.get c k).2)).Nodup := Store.nodup_keys_get c k hndc
      have hleng : ((Store.get c k).2).length = c.length := Store.length_get c k hndc
      have hfindg : ∀ k2, Store.find ((Store.get c k).2) k2 = Store.find c k2 :=
        fun k2 => Store.find_get c k k2
      cases hsp : e.expiry with
      | none =>
        rw [pass1_cons_spec k ks td c e hf hsp] at hp
        have hkg : k ∈ Store.keys ((Store.get c k).2) := by
          rw [Store.mem_keys_iff_find, hfindg, hf]; rfl
        have hndd : (Store.keys (Store.delete ((Store.get c k).2) k)).Nodup :=
          Store.nodup_keys_delete _ k hndg
        have hlend : (Store.delete ((Store.get c k).2) k).length + 1 =
            ((Store.get c k).2).length := Store.length_delete _ k hndg hkg
        by_cases htd : td - 1 = 0
        · rw [if_pos htd, Prod.mk.injEq, Prod.mk.injEq] at hp
          obtain ⟨h1', h2', h3'⟩ := hp
          subst h2'
          refine ⟨hndd, ?_, by omega, fun _ => by omega⟩
          omega
        · rw [if_neg htd] at hp
          have hmem2 : ∀ k2 ∈ ks, k2 ∈ Store.keys (Store.delete ((Store.get c k).2) k) := by
            intro k2 hk2
            have hne : k2 ≠ k := fun hkk => hnd.1 (hkk ▸ hk2)
            rw [Store.mem_keys_iff_find, Store.find_delete, if_neg hne, hfindg]
            exact (Store.mem_keys_iff_find c k2).1 (hmem k2 (by simp [hk2]))
          have := ih (td - 1) (Store.delete ((Store.get c k).2) k) td1 c1 e1 hp
            (by omega) hnd.2 hmem2 hndd
          obtain ⟨ha, hb, hc, hd⟩ := this
          exact ⟨ha, by omega, by omega, fun he => hd he⟩
      | some x =>
        rw [pass1_cons_fresh k ks td c e x hf hsp] at hp
        rw [if_neg (by omega)] at hp
        have hmem2 : ∀ k2 ∈ ks, k2 ∈ Store.keys ((Store.get c k).2) := by
          intro k2 hk2
          rw [Store.mem_keys_iff_find, hfindg]
          exact (Store.mem_keys_iff_find c k2).1 (hmem k2 (by simp [hk2]))
        have := ih td ((Store.get c k).2) td1 c1 e1 hp h1 hnd.2 hmem2 hndg
        obtain ⟨ha, hb, hc, hd⟩ := this
        exact ⟨ha, by omega, hc, hd⟩

/-- The first eviction loop never creates a binding: an absent key stays
absent. -/
theorem pass1_find_none :
    ∀ (ks : List String) (td : Nat) (c : Store) (td1 : Nat) (c1 : Store) (e1 : Bool),
      pass1 ks td c = (td1, c1, e1) →
      ∀ k2, Store.find c k2 = none → Store.find c1 k2 = none := by
  intro ks
  induction ks with
  | nil =>
    intro td c td1 c1 e1 hp k2 h
    rw [pass1_nil, Prod.mk.injEq, Prod.mk.injEq] at hp
    obtain ⟨rfl, rfl, rfl⟩ := hp
    exact h
  | cons k ks ih =>
    intro td c td1 c1 e1 hp k2 h
    cases hf : Store.find c k with
    | none =>
      rw [pass1_cons_miss k ks td c hf] at hp
      have hd : Store.find (Store.delete c k) k2 = none := by
        rw [Store.find_delete]
        by_cases hh : k2 = k <;> simp [hh, h]
      by_cases htd : td - 1 = 0
      · rw [if_pos htd, Prod.mk.injEq, Prod.mk.injEq] at hp
        obtain ⟨-, rfl, -⟩ := hp
        exact hd
      · rw [if_neg htd] at hp
        exact ih _ _ _ _ _ hp k2 hd
    | some e =>
      have hg : Store.find ((Store.get c k).2) k2 = none := by
        rw [Store.find_get]; exact h
      cases hsp : e.expiry with
      | none =>
        rw [pass1_cons_spec k ks td c e hf hsp] at hp
        have hd : Store.find (Store.delete ((Store.get c k).2) k) k2 = none := by
          rw [Store.find_delete]
          by_cases hh : k2 = k <;> simp [hh, hg]
        by_cases htd : td - 1 = 0
        · rw [if_pos htd, Prod.mk.injEq, Prod.mk.injEq] at hp
          obtain ⟨-, rfl, -⟩ := hp
          exact hd
        · rw [if_neg htd] at hp
          exact ih _ _ _ _ _ hp k2 hd
      | some x =>
        rw [pass1_cons_fresh k ks td c e x hf hsp] at hp
        by_cases htd : td = 0
        · rw [if_pos htd, Prod.mk.injEq, Prod.mk.injEq] at hp
          obtain ⟨-, rfl, -⟩ := hp
          exact hg
        · rw [if_neg htd] at hp
          exact ih _ _ _ _ _ hp k2 hg

/-- The first eviction loop never deletes or alters a fresh entry (one with
an explicit expiry): it only promotes it. -/
theorem pass1_fresh_kept :
    ∀ (ks : List String) (td : Nat) (c : Store) (td1 : Nat) (c1 : Store) (e1 : Bool),
      pass1 ks td c = (td1, c1, e1) →
      ∀ k2 e x, Store.find c k2 = some e → e.expiry = some x →
        Store.find c1 k2 = some e := by
  intro ks
  induction ks with
  | nil =>
    intro td c td1 c1 e1 hp k2 e x h hx
    rw [pass1_nil, Prod.mk.injEq, Prod.mk.injEq] at hp
    obtain ⟨rfl, rfl, rfl⟩ := hp
    exact h
  | cons k ks ih =>
    intro td c td1 c1 e1 hp k2 e x h hx
    cases hf : Store.find c k with
    | none =>
      rw [pass1_cons_miss k ks td c hf] at hp
      have hne : k2 ≠ k := by
        intro hkk; rw [hkk, hf] at h; exact Option.noConfusion h
      have hd : Store.find (Store.delete c k) k2 = some e := by
        rw [Store.find_delete, if_neg hne]; exact h
      by_cases htd : td - 1 = 0
      · rw [if_pos htd, Prod.mk.injEq, Prod.mk.injEq] at hp
        obtain ⟨-, rfl, -⟩ := hp
        exact hd
      · rw [if_neg htd] at hp
        exact ih _ _ _ _ _ hp k2 e x hd hx
    | some e0 =>
      have hg : Store.find ((Store.get c k).2) k2 = some e := by
        rw [Store.find_get]; exact h
      cases hsp : e0.expiry with
      | none =>
        rw [pass1_cons_spec k ks td c e0 hf hsp] at hp
        have hne : k2 ≠ k := by
          intro hkk
          rw [hkk, hf] at h
          obtain rfl : e0 = e := Option.some.injEq .. ▸ h.symm ▸ rfl
          rw [hsp] at hx
          exact Option.noConfusion hx
        have hd : Store.find (Store.delete ((Store.get c k).2) k) k2 = some e := by
          rw [Store.find_delete, if_neg hne]; exact hg
        by_cases htd : td - 1 = 0
        · rw [if_pos htd, Prod.mk.injEq, Prod.mk.injEq] at hp
          obtain ⟨-, rfl, -⟩ := hp
          exact hd
        · rw [if_neg htd] at hp
          exact ih _ _ _ _ _ hp k2 e x hd hx
      | some y =>
        rw [pass1_cons_fresh k ks td c e0 y hf hsp] at hp
        by_cases htd : td = 0
        · rw [if_pos htd, Prod.mk.injEq, Prod.mk.injEq] at hp
          obtain ⟨-, rfl, -⟩ := hp
          exact hg
        · rw [if_neg htd] at hp
          exact ih _ _ _ _ _ hp k2 e x hg hx

/-- When the first eviction loop runs to completion (no early return), every
speculative entry named in its duplicate-free snapshot has been deleted. -/
theorem pass1_spec_gone :
    ∀ (ks : List String) (td : Nat) (c : Store) (td1 : Nat) (c1 : Store),
      pass1 ks td c = (td1, c1, false) → ks.Nodup →
      ∀ k ∈ ks, ∀ e, Store.find c k = some e → e.expiry = none →
        Store.find c1 k = none := by
  intro ks
  induction ks with
  | nil => intro td c td1 c1 _ _ k hk; simp at hk
  | cons k0 ks ih =>
    intro td c td1 c1 hp hnd k hk e hfind hsp
    simp only [List.nodup_cons] at hnd
    rcases List.mem_cons.1 hk with rfl | hk2
    · -- the snapshot key itself holds the speculative entry
      rw [pass1_cons_spec k ks td c e hfind hsp] at hp
      have hd : Store.find (Store.delete ((Store.get c k).2) k) k = none := by
        rw [Store.find_delete, if_pos rfl]
      by_cases htd : td - 1 = 0
      · rw [if_pos htd, Prod.mk.injEq, Prod.mk.injEq] at hp
        obtain ⟨-, -, hfl⟩ := hp
        exact absurd hfl (by simp)
      · rw [if_neg htd] at hp
        exact pass1_find_none ks (td - 1) _ td1 c1 false hp k hd
    · -- the entry lives under a later snapshot key
      have hne : k ≠ k0 := fun hkk => hnd.1 (hkk ▸ hk2)
      cases hf0 : Store.find c k0 with
      | none =>
        rw [pass1_cons_miss k0 ks td c hf0] at hp
        by_cases htd : td - 1 = 0
        · rw [if_pos htd, Prod.mk.injEq, Prod.mk.injEq] at hp
          obtain ⟨-, -, hfl⟩ := hp
          exact absurd hfl (by simp)
        · rw [if_neg htd] at hp
          have hfind2 : Store.find (Store.delete c k0) k = some e := by
            rw [Store.find_delete, if_neg hne]; exact hfind
          exact ih (td - 1) _ td1 c1 hp hnd.2 k hk2 e hfind2 hsp
      | some e0 =>
        have hfg : Store.find ((Store.get c k0).2) k = some e := by
          rw [Store.find_get]; exact hfind
        cases hsp0 : e0.expiry with
        | none =>
          rw [pass1_cons_spec k0 ks td c e0 hf0 hsp0] at hp
          by_cases htd : td - 1 = 0
          · rw [if_pos htd, Prod.mk.injEq, Prod.mk.injEq] at hp
            obtain ⟨-, -, hfl⟩ := hp
            exact absurd hfl (by simp)
          · rw [if_neg htd] at hp
            have hfind2 : Store.find (Store.delete ((Store.get c k0).2) k0) k = some e := by
              rw [Store.find_delete, if_neg hne]; exact hfg
            exact ih (td - 1) _ td1 c1 hp hnd.2 k hk2 e hfind2 hsp
        | some y =>
          rw [pass1_cons_fresh k0 ks td c e0 y hf0 hsp0] at hp
          by_cases htd : td = 0
          · rw [if_pos htd, Prod.mk.injEq, Prod.mk.injEq] at hp
            obtain ⟨-, -, hfl⟩ := hp
            exact absurd hfl (by simp)
          · rw [if_neg htd] at hp
            exact ih td _ td1 c1 hp hnd.2 k hk2 e hfg hsp

/-- The second eviction loop walking the store's own duplicate-free key
snapshot deletes exactly the oldest bindings: it is `List.drop`. -/
theorem pass2_drop :
    ∀ (td : Nat) (c : Store), (Store.keys c).Nodup → td ≤ c.length →
      pass2 (Store.keys c) td c = c.drop td := by
  intro td
  induction td with
  | zero =>
    intro c _ _
    cases hk : Store.keys c <;> simp [pass2]
  | succ n ih =>
    intro c hnd hle
    cases c with
    | nil => simp at hle
    | cons p t =>
      obtain ⟨k1, v⟩ := p
      simp only [Store.keys_cons, List.nodup_cons] at hnd
      have hdel : Store.delete ((k1, v) :: t) k1 = t := by
        rw [Store.delete_cons, if_pos rfl]
        exact Store.delete_not_mem t k1 hnd.1
      show pass2 (k1 :: Store.keys t) (n + 1) ((k1, v) :: t) = _
      rw [pass2, hdel]
      simp only [List.length_cons] at hle
      rw [ih t hnd.2 (by omega)]
      rfl

/-- The second eviction loop never creates a binding. -/
theorem pass2_find_none :
    ∀ (ks : List String) (td : Nat) (c : Store) (k : String),
      Store.find c k = none → Store.find (pass2 ks td c) k = none := by
  intro ks
  induction ks with
  | nil =>
    intro td c k h
    cases td <;> simpa [pass2]
  | cons k2 ks ih =>
    intro td c k h
    cases td with
    | zero => simpa [pass2]
    | succ n =>
      rw [pass2]
      apply ih
      rw [Store.find_delete]
      by_cases hh : k = k2 <;> simp [hh, h]

/-- Walking a snapshot of keys whose entries are all fresh only promotes
each key in turn: the store is rotated back to its original order, nothing
is deleted, and the overflow is untouched. -/
theorem pass1_all_fresh :
    ∀ (a b : Store) (td : Nat), ¬ td = 0 →
      (Store.keys (a ++ b)).Nodup → (∀ p ∈ a, (p.2.expiry).isSome) →
      pass1 (Store.keys a) td (a ++ b) = (td, b ++ a, false) := by
  intro a
  induction a with
  | nil =>
    intro b td _ _ _
    simp [pass1_nil]
  | cons p a ih =>
    intro b td htd hnd hall
    obtain ⟨k, v⟩ := p
    have hx : (v.expiry).isSome := hall (k, v) (by simp)
    obtain ⟨x, hx2⟩ := Option.isSome_iff_exists.1 hx
    have hfind : Store.find (((k, v) :: a) ++ b) k = some v := by simp
    have hnotmem : k ∉ Store.keys (a ++ b) := by
      have := hnd
      simp only [List.cons_append, Store.keys_cons, List.nodup_cons] at this
      exact this.1
    have hndtail : (Store.keys a ++ (Store.keys b ++ [k])).Nodup := by
      have hnd2 : (k :: (Store.keys a ++ Store.keys b)).Nodup := by
        simpa using hnd
      have hperm : List.Perm (Store.keys a ++ (Store.keys b ++ [k]))
          (k :: (Store.keys a ++ Store.keys b)) :=
        (List.Perm.append_left (Store.keys a)
          (List.perm_append_singleton k (Store.keys b))).trans List.perm_middle
      exact hperm.symm.nodup hnd2
    show pass1 (k :: Store.keys a) td ((k, v) :: (a ++ b)) = _
    rw [pass1_cons_fresh k (Store.keys a) td ((k, v) :: (a ++ b)) v x hfind hx2,
      if_neg htd]
    have hget : (Store.get ((k, v) :: (a ++ b)) k).2 = a ++ (b ++ [(k, v)]) := by
      unfold Store.get
      rw [show Store.find ((k, v) :: (a ++ b)) k = some v from hfind]
      simp only
      rw [Store.delete_cons, if_pos rfl, Store.delete_not_mem (a ++ b) k hnotmem,
        List.append_assoc]
    rw [hget]
    have hnd3 : (Store.keys (a ++ (b ++ [(k, v)]))).Nodup := by
      simpa [Store.keys] using hndtail
    rw [ih (b ++ [(k, v)]) td htd hnd3 (fun q hq => hall q (by simp [hq]))]
    rw [List.append_assoc]
    rfl

/-- The eviction pass leaves the store within capacity whenever its keys are
duplicate-free. -/
theorem reduce_length_le (capacity : Nat) (c : Store)
    (hnd : (Store.keys c).Nodup) :
    (reduce_cache_count capacity c).length ≤ capacity := by
  unfold reduce_cache_count
  split
  · assumption
  · rename_i hlen
    rcases hres : pass1 (Store.keys c) (c.length - capacity) c with ⟨td1, c1, e1⟩
    have acc := pass1_accounting (Store.keys c) (c.length - capacity) c td1 c1 e1
      hres (by omega) hnd (fun k hk => hk) hnd
    obtain ⟨hnd1, hlen1, hle1, hearly⟩ := acc
    cases e1 with
    | true =>
      have : td1 = 0 := hearly rfl
      simp only
      omega
    | false =>
      simp only
      have htdle : td1 ≤ c1.length := by omega
      rw [pass2_drop td1 c1 hnd1 htdle]
      rw [List.length_drop]
      omega

/-- Within capacity the eviction pass is a no-op. -/
theorem reduce_eq_of_within (capacity : Nat) (c : Store)
    (hlen : c.length ≤ capacity) : reduce_cache_count capacity c = c := by
  unfold reduce_cache_count
  rw [if_pos hlen]

/-- When the first eviction loop returns early, its store is the result. -/
theorem reduce_eq_of_pass1_true (capacity : Nat) (c : Store) (td1 : Nat) (c1 : Store)
    (hlen : ¬ c.length ≤ capacity)
    (hres : pass1 (Store.keys c) (c.length - capacity) c = (td1, c1, true)) :
    reduce_cache_count capacity c = c1 := by
  unfold reduce_cache_count
  rw [if_neg hlen, hres]

/-- When the first eviction loop falls through, the second loop runs on a
fresh key snapshot. -/
theorem reduce_eq_of_pass1_false (capacity : Nat) (c : Store) (td1 : Nat) (c1 : Store)
    (hlen : ¬ c.length ≤ capacity)
    (hres : pass1 (Store.keys c) (c.length - capacity) c = (td1, c1, false)) :
    reduce_cache_count capacity c = pass2 (Store.keys c1) td1 c1 := by
  unfold reduce_cache_count
  rw [if_neg hlen, hres]

/-- Speculative entries are evicted before fresh ones: if the eviction pass
removed any entry that had an explicit expiry, then no speculative entry
survived it. -/
theorem reduce_spec_first (capacity : Nat) (c : Store) (hnd : (Store.keys c).Nodup)
    (kf : String) (ef : Entry) (hf : Store.find c kf = some ef)
    (hfx : (ef.expiry).isSome)
    (hgone : Store.find (reduce_cache_count capacity c) kf = none) :
    ∀ ks2 es, Store.find c ks2 = some es → es.expiry = none →
      Store.find (reduce_cache_count capacity c) ks2 = none := by
  intro ks2 es hfind2 hsp2
  by_cases hlen : c.length ≤ capacity
  · rw [reduce_eq_of_within capacity c hlen, hf] at hgone
    exact Option.noConfusion hgone
  · rcases hres : pass1 (Store.keys c) (c.length - capacity) c with ⟨td1, c1, e1⟩
    cases e1 with
    | true =>
      have heq := reduce_eq_of_pass1_true capacity c td1 c1 hlen hres
      obtain ⟨x, hx⟩ := Option.isSome_iff_exists.1 hfx
      have hkept := pass1_fresh_kept (Store.keys c) _ c td1 c1 true hres kf ef x hf hx
      rw [heq, hkept] at hgone
      exact Option.noConfusion hgone
    | false =>
      have heq := reduce_eq_of_pass1_false capacity c td1 c1 hlen hres
      rw [heq]
      have hk2mem : ks2 ∈ Store.keys c := by
        rw [Store.mem_keys_iff_find, hfind2]; rfl
      have hgone1 : Store.find c1 ks2 = none :=
        pass1_spec_gone (Store.keys c) _ c td1 c1 hres hnd ks2 hk2mem es hfind2 hsp2
      exact pass2_find_none (Store.keys c1) td1 c1 ks2 hgone1

/-- When every entry carries an explicit expiry, the eviction pass removes
exactly the oldest-inserted entries: the result is `drop` of the overflow. -/
theorem reduce_all_fresh (capacity : Nat) (c : Store) (hnd : (Store.keys c).Nodup)
    (hall : ∀ p ∈ c, (p.2.expiry).isSome) :
    reduce_cache_count capacity c = c.drop (c.length - capacity) := by
  by_cases hlen : c.length ≤ capacity
  · have h0 : c.length - capacity = 0 := by omega
    rw [h0, List.drop_zero]
    exact reduce_eq_of_within capacity c hlen
  · have htd : ¬ (c.length - capacity) = 0 := by omega
    have hres := pass1_all_fresh c [] (c.length - capacity) htd (by simpa) hall
    rw [List.append_nil, List.nil_append] at hres
    rw [reduce_eq_of_pass1_false capacity c (c.length - capacity) c hlen hres]
    exact pass2_drop (c.length - capacity) c hnd (by omega)

/-- A successful `store` writes exactly one entry for the response (under
its bare URL, with the computed creation and some expiry option) and then
runs the eviction pass. -/
theorem store_true_shape (capacity now : Nat) (resp : Response) (c c2 : Store)
    (h : store capacity now resp c = .ok (true, c2)) :
    ∃ xp, c2 = reduce_cache_count capacity
        (Store.set c resp.url ⟨resp, store_creation now resp, xp⟩) ∧
      ∀ x, xp = some x → ∃ cr, store_creation now resp = some cr ∧ cr < x := by
  unfold store store_after_expiry storeWrite at h
  repeat' split at h
  all_goals (try simp_all)
  all_goals
    rcases hcr : store_creation now resp with _ | cr <;>
      rw [hcr] at h <;> (try split at h) <;> (try split at h) <;>
      simp_all
  all_goals refine ⟨_, h.symm, ?_⟩
  all_goals intro y hy
  all_goals
    first
      | exact Option.noConfusion hy
      | (injection hy with hy2; subst hy2; assumption)

/-- Every store is a sub-store of itself. -/
theorem entry_sub_refl (c : Store) : EntryValSub c c := fun k _ hf => ⟨k, hf⟩

/-- Sub-store relations compose. -/
theorem entry_sub_trans {c2 c1 c : Store} (h2 : EntryValSub c2 c1)
    (h1 : EntryValSub c1 c) : EntryValSub c2 c := by
  intro k e hf
  obtain ⟨k2, hf2⟩ := h2 k e hf
  exact h1 k2 e hf2

/-- Deletion never manufactures an entry. -/
theorem entry_sub_delete (c : Store) (k : String) :
    EntryValSub (Store.delete c k) c := by
  intro k2 e hf
  rw [Store.find_delete] at hf
  by_cases hk : k2 = k
  · rw [if_pos hk] at hf
    exact Option.noConfusion hf
  · rw [if_neg hk] at hf
    exact ⟨k2, hf⟩

/-- Promotion never manufactures an entry. -/
theorem entry_sub_get (c : Store) (k : String) :
    EntryValSub ((Store.get c k).2) c := by
  intro k2 e hf
  rw [Store.find_get] at hf
  exact ⟨k2, hf⟩

/-- The first eviction loop never manufactures an entry. -/
theorem entry_sub_pass1 :
    ∀ (ks : List String) (td : Nat) (c : Store) (td1 : Nat) (c1 : Store) (e1 : Bool),
      pass1 ks td c = (td1, c1, e1) → EntryValSub c1 c := by
  intro ks
  induction ks with
  | nil =>
    intro td c td1 c1 e1 hp
    rw [pass1_nil, Prod.mk.injEq, Prod.mk.injEq] at hp
    obtain ⟨rfl, rfl, rfl⟩ := hp
    exact entry_sub_refl c
  | cons k ks ih =>
    intro td c td1 c1 e1 hp
    have hsubd : EntryValSub (Store.delete ((Store.get c k).2) k) c :=
      entry_sub_trans (entry_sub_delete _ k) (entry_sub_get c k)
    have hsubm : EntryValSub (Store.delete c k) c := entry_sub_delete c k
    cases hf : Store.find c k with
    | none =>
      rw [pass1_cons_miss k ks td c hf] at hp
      by_cases htd : td - 1 = 0
      · rw [if_pos htd, Prod.mk.injEq, Prod.mk.injEq] at hp
        obtain ⟨-, rfl, -⟩ := hp
        exact hsubm
      · rw [if_neg htd] at hp
        exact entry_sub_trans (ih _ _ _ _ _ hp) hsubm
    | some e =>
      cases hsp : e.expiry with
      | none =>
        rw [pass1_cons_spec k ks td c e hf hsp] at hp
        by_cases htd : td - 1 = 0
        · rw [if_pos htd, Prod.mk.injEq, Prod.mk.injEq] at hp
          obtain ⟨-, rfl, -⟩ := hp
          exact hsubd
        · rw [if_neg htd] at hp
          exact entry_sub_trans (ih _ _ _ _ _ hp) hsubd
      | some x =>
        rw [pass1_cons_fresh k ks td c e x hf hsp] at hp
        by_cases htd : td = 0
        · rw [if_pos htd, Prod.mk.injEq, Prod.mk.injEq] at hp
          obtain ⟨-, rfl, -⟩ := hp
          exact entry_sub_get c k
        · rw [if_neg htd] at hp
          exact entry_sub_trans (ih _ _ _ _ _ hp) (entry_sub_get c k)

/-- The second eviction loop never manufactures an entry. -/
theorem entry_sub_pass2 :
    ∀ (ks : List String) (td : Nat) (c : Store), EntryValSub (pass2 ks td c) c := by
  intro ks
  induction ks with
  | nil =>
    intro td c
    cases td <;> exact entry_sub_refl c
  | cons k ks ih =>
    intro td c
    cases td with
    | zero => exact entry_sub_refl c
    | succ n =>
      rw [pass2]
      exact entry_sub_trans (ih n (Store.delete c k)) (entry_sub_delete c k)

/-- The eviction pass never manufactures an entry. -/
theorem entry_sub_reduce (capacity : Nat) (c : Store) :
    EntryValSub (reduce_cache_count capacity c) c := by
  by_cases hlen : c.length ≤ capacity
  · rw [reduce_eq_of_within capacity c hlen]
    exact entry_sub_refl c
  · rcases hres : pass1 (Store.keys c) (c.length - capacity) c with ⟨td1, c1, e1⟩
    cases e1 with
    | true =>
      rw [reduce_eq_of_pass1_true capacity c td1 c1 hlen hres]
      exact entry_sub_pass1 _ _ _ _ _ _ hres
    | false =>
      rw [reduce_eq_of_pass1_false capacity c td1 c1 hlen hres]
      exact entry_sub_trans (entry_sub_pass2 (Store.keys c1) td1 c1)
        (entry_sub_pass1 _ _ _ _ _ _ hres)

/-- The entry invariant transports along sub-stores. -/
theorem inv_of_sub {c2 c : Store} (hsub : EntryValSub c2 c) (hinv : EntryInv c) :
    EntryInv c2 := by
  intro k e hf x hx
  obtain ⟨k2, hf2⟩ := hsub k e hf
  exact hinv k2 e hf2 x hx

/-- Writing an entry that satisfies the invariant preserves the invariant. -/
theorem inv_set (c : Store) (k : String) (v : Entry) (hinv : EntryInv c)
    (hv : ∀ x, v.expiry = some x → ∃ cr, v.creation = some cr ∧ cr < x) :
    EntryInv (Store.set c k v) := by
  intro k2 e hf x hx
  rw [Store.find_set] at hf
  by_cases hk : k2 = k
  · rw [if_pos hk] at hf
    obtain rfl : v = e := by injection hf
    exact hv x hx
  · rw [if_neg hk] at hf
    exact hinv k2 e hf x hx

/-- Helper: every rejection path of `store` returns the cache untouched. -/
theorem store_rejected_id (capacity now : Nat) (resp : Response)
    (c c2 : Store) (h : store capacity now resp c = .ok (false, c2)) : c2 = c := by
  unfold store store_after_expiry storeWrite at h
  repeat' split at h
  all_goals (try simp_all)
  all_goals
    rcases hcr : store_creation now resp with _ | cr <;>
      rw [hcr] at h <;> (try split at h) <;> (try split at h) <;> simp_all



/-- `retrieve` never manufactures an entry: its result store only reflects
promotion and deletion. -/
theorem retrieve_sub (now : Nat) (req : Request) (r : Option Response)
    (req2 : Request) (c c2 : Store)
    (h : retrieve now req c = .ok (r, req2, c2)) : EntryValSub c2 c := by
  simp only [retrieve] at h
  repeat' split at h
  all_goals
    first
      | (rw [Except.ok.injEq, Prod.mk.injEq, Prod.mk.injEq] at h
         obtain ⟨-, -, h3⟩ := h
         rw [← h3]
         first
           | exact entry_sub_get c _
           | exact entry_sub_trans (entry_sub_delete _ req.url) (entry_sub_get c _))
      | exact absurd h (by simp)

/-- Helper: the rejection half of the C8 claim — `store` refuses any
response whose computed expiry does not exceed its computed creation. -/
theorem store_rejects_stale (capacity now : Nat) (resp : Response) (c : Store)
    (cr x : Nat) (hcr : store_creation now resp = some cr)
    (hx : store_expiry now resp = some x) (hle : x ≤ cr) :
    store capacity now resp c = .ok (false, c) := by
  unfold store
  by_cases h1 : resp.status_code ∈ CACHEABLE_RCS
  · by_cases h2 : resp.request.method ∈ CACHEABLE_VERBS
    · rw [if_neg (not_not_intro h1), if_neg (not_not_intro h2)]
      unfold store_expiry at hx
      cases hcc : resp.headers.cacheControl with
      | some ccv =>
        simp only [hcc] at hx ⊢
        cases hefc : expires_from_cache_control ccv now with
        | reject =>
          simp only [hefc] at hx
          exact Option.noConfusion hx
        | fallback =>
          simp only [hefc] at hx
          exact Option.noConfusion hx
        | expiresAt t =>
          simp only [hefc] at hx ⊢
          obtain rfl : t = x := by injection hx
          unfold store_after_expiry
          simp only [hcr]
          rw [if_pos hle]
      | none =>
        simp only [hcc] at hx ⊢
        unfold store_after_expiry
        simp only [hx, hcr]
        rw [if_pos hle]
    · rw [if_neg (not_not_intro h1), if_pos h2]
  · rw [if_pos h1]

/-- A `store` call that returns preserves the entry invariant. -/
theorem store_step_inv (capacity now : Nat) (resp : Response) (c : Store)
    (b : Bool) (c2 : Store) (hinv : EntryInv c)
    (h : store capacity now resp c = .ok (b, c2)) : EntryInv c2 := by
  cases b with
  | false =>
    rw [store_rejected_id capacity now resp c c2 h]
    exact hinv
  | true =>
    obtain ⟨xp, rfl, hxp⟩ := store_true_shape capacity now resp c c2 h
    refine inv_of_sub (entry_sub_reduce capacity _) ?_
    refine inv_set c resp.url _ hinv ?_
    intro x hx
    exact hxp x hx

/-- Every reachable cache state satisfies the entry invariant. -/
theorem reachable_inv : ∀ c : Store, Reachable c → EntryInv c := by
  intro c h
  induction h with
  | empty =>
    intro k e hf
    rw [Store.find_nil] at hf
    exact Option.noConfusion hf
  | store_step capacity now resp hr hst ih =>
    exact store_step_inv capacity now resp _ _ _ ih hst
  | retrieve_step now req hr hst ih =>
    exact inv_of_sub (retrieve_sub now req _ _ _ _ hst) ih
  | handle_step resp hr ih =>
    exact inv_of_sub (entry_sub_get _ _) ih

/-- C8.  (i) Every entry ever present in a reachable store satisfies: a
present `expiry` comes with a present `creation` and `expiry > creation`.
(ii) `store` returns false and stores nothing whenever the computed expiry
is present and does not exceed the computed creation timestamp.  (iii) and
(iv): `retrieve` and `handle_304` never create entries — every entry value
in their result store already existed. -/
theorem C8_entry_invariant :
    (∀ c : Store, Reachable c → EntryInv c) ∧
    (∀ capacity now : Nat, ∀ resp : Response, ∀ c : Store, ∀ cr x : Nat,
        store_creation now resp = some cr → store_expiry now resp = some x →
        x ≤ cr → store capacity now resp c = .ok (false, c)) ∧
    (∀ now : Nat, ∀ req : Request, ∀ r : Option Response, ∀ req2 : Request,
        ∀ c c2 : Store, retrieve now req c = .ok (r, req2, c2) →
        EntryValSub c2 c) ∧
    (∀ resp : Response, ∀ c : Store, EntryValSub (handle_304 resp c).2 c) := by
  refine ⟨reachable_inv, ?_, ?_, ?_⟩
  · intro capacity now resp c cr x hcr hx hle
    exact store_rejects_stale capacity now resp c cr x hcr hx hle
  · intro now req r req2 c c2 h
    exact retrieve_sub now req r req2 c c2 h
  · intro resp c
    exact entry_sub_get c resp.url

/-- Witness for C8 at concrete inputs: the empty store satisfies the entry
invariant, and a response whose Date (10000) postdates its max-age expiry
(3600 at time 0) is rejected. -/
theorem C8_witness :
    EntryInv ([] : Store) ∧ store 5 0 respStale [] = .ok (false, []) :=
  ⟨C8_entry_invariant.1 [] Reachable.empty,
   C8_entry_invariant.2.1 5 0 respStale [] 10000 3600 rfl rfl (by decide)⟩

/-- C9.  (i) After every successful `store` on a duplicate-free store (the
in-process backend, whose length is always available), the store holds at
most `capacity` entries.  (ii) The eviction pass removes speculative entries
before fresh ones: if any entry with an explicit expiry was evicted, no
speculative entry survived.  (iii) When every entry has an explicit expiry,
eviction removes exactly the oldest-inserted entries.  (iv) Scenario A:
capacity 5, four fresh stores, one speculative store, one more fresh store —
all six succeed, the final length is 5, the speculative entry is gone and
every fresh entry is retained.  (v) Scenario B: capacity 5, six fresh stores
— all succeed, the final length is 5 and exactly the oldest-inserted entry
was evicted. -/
theorem C9_capacity_and_eviction :
    (∀ capacity now : Nat, ∀ resp : Response, ∀ c c2 : Store,
        (Store.keys c).Nodup → store capacity now resp c = .ok (true, c2) →
        c2.length ≤ capacity) ∧
    (∀ capacity : Nat, ∀ c : Store, (Store.keys c).Nodup →
        ∀ kf : String, ∀ ef : Entry, Store.find c kf = some ef →
        (ef.expiry).isSome →
        Store.find (reduce_cache_count capacity c) kf = none →
        ∀ ks2 : String, ∀ es : Entry, Store.find c ks2 = some es →
        es.expiry = none →
        Store.find (reduce_cache_count capacity c) ks2 = none) ∧
    (∀ capacity : Nat, ∀ c : Store, (Store.keys c).Nodup →
        (∀ p ∈ c, (p.2.expiry).isSome) →
        reduce_cache_count capacity c = c.drop (c.length - capacity)) ∧
    (storeRC 5 0 (freshResp "u0") [] = some true ∧
      storeRC 5 0 (freshResp "u1") sA1 = some true ∧
      storeRC 5 0 (freshResp "u2") sA2 = some true ∧
      storeRC 5 0 (freshResp "u3") sA3 = some true ∧
      storeRC 5 0 (specResp "uother") sA4 = some true ∧
      storeRC 5 0 (freshResp "u5") sA5 = some true ∧
      sA6.length = 5 ∧ Store.find sA6 "uother" = none ∧
      (Store.find sA6 "u0").isSome ∧ (Store.find sA6 "u1").isSome ∧
      (Store.find sA6 "u2").isSome ∧ (Store.find sA6 "u3").isSome ∧
      (Store.find sA6 "u5").isSome) ∧
    (storeRC 5 0 (freshResp "u0") [] = some true ∧
      storeRC 5 0 (freshResp "u1") sB1 = some true ∧
      storeRC 5 0 (freshResp "u2") sB2 = some true ∧
      storeRC 5 0 (freshResp "u3") sB3 = some true ∧
      storeRC 5 0 (freshResp "u4") sB4 = some true ∧
      storeRC 5 0 (freshResp "u5") sB5 = some true ∧
      sB6.length = 5 ∧ Store.find sB6 "u0" = none ∧
      Store.keys sB6 = ["u1", "u2", "u3", "u4", "u5"]) := by
  refine ⟨?_, ?_, ?_, ?_, ?_⟩
  · intro capacity now resp c c2 hnd hst
    obtain ⟨xp, rfl, -⟩ := store_true_shape capacity now resp c c2 hst
    exact reduce_length_le capacity _ (Store.nodup_keys_set c resp.url _ hnd)
  · intro capacity c hnd kf ef hf hfx hgone ks2 es hfind2 hsp2
    exact reduce_spec_first capacity c hnd kf ef hf hfx hgone ks2 es hfind2 hsp2
  · intro capacity c hnd hall
    exact reduce_all_fresh capacity c hnd hall
  · exact ⟨rfl, rfl, rfl, rfl, rfl, rfl, by decide, by decide, by decide,
      by decide, by decide, by decide, by decide⟩
  · exact ⟨rfl, rfl, rfl, rfl, rfl, rfl, by decide, by decide, by decide⟩

/-- Witness for C9 at a concrete input: storing one fresh response into the
empty store (duplicate-free keys) leaves at most 5 entries. -/
theorem C9_witness :
    (Store.keys ([] : Store)).Nodup ∧ sA1.length ≤ 5 :=
  ⟨List.nodup_nil,
   C9_capacity_and_eviction.1 5 0 (freshResp "u0") [] sA1 List.nodup_nil rfl⟩
